import Mathlib

set_option maxRecDepth 16384

/-!
# Verification of the site link-graph auditing scripts

A shallow embedding, in Lean 4, of the link-resolution, link-graph,
orphan-detection, link-suggestion and link-checking logic of the
static-site auditing scripts (`find_orphaned_pages.py`,
`find_internal_link_opportunities.py`, `suggest_orphan_links.py`,
`link_checker.py`).

Modelling conventions:
* Paths and hrefs are `String`s; all string processing is implemented over
  `List Char` (`String.data`) so that every definition evaluates by kernel
  reduction.
* The filesystem is a `SiteFS` value: the site root (an absolute,
  normalized POSIX path), the list of existing files, the list of existing
  directories, and the anchor ids of each parsed file.  `os.path.isdir` /
  `os.path.isfile` become list membership.
* The HTML parser (BeautifulSoup) is an external collaborator; a parsed
  page is a `DocContent` value carrying exactly the data the scripts read
  from the soup (title string, meta-keywords content, joined element text,
  hrefs of anchor tags, urls of checkable tags).  A read or parse
  exception is modelled by `parse = none`.
* Python `set`s are modelled as duplicate-free lists; iteration over a set
  is iteration over the list (one fixed iteration order).
* Python dicts keyed by page path are modelled as association lists.
-/

/-! ## Character-level string utilities (POSIX `os.path`, `urllib`) -/

/-- Split a character list at every occurrence of `sep`, keeping empty
pieces, like Python `str.split(sep)`. -/
def splitOnChar (sep : Char) : List Char → List Char → List (List Char)
  | acc, [] => [acc.reverse]
  | acc, c :: cs =>
    if c = sep then acc.reverse :: splitOnChar sep [] cs
    else splitOnChar sep (c :: acc) cs

/-- Join character-list pieces with a separator character. -/
def joinWithChar (sep : Char) : List (List Char) → List Char
  | [] => []
  | [x] => x
  | x :: xs => x ++ sep :: joinWithChar sep xs

/-- Decidable string membership in a list (`x in pyset`). -/
def memStr (p : String) (l : List String) : Bool :=
  l.any (fun q => decide (p = q))

/-- Python set insertion: append to the model list if not yet present. -/
def insertStr (p : String) (l : List String) : List String :=
  if memStr p l then l else l ++ [p]

/-- Python set construction from an iterable: insert each element in
turn, keeping the first occurrence of each string. -/
def dedupStr (l : List String) : List String :=
  l.foldl (fun acc p => insertStr p acc) []

/-- `str.startswith` on strings. -/
def startsWithStr (s pre : String) : Bool :=
  pre.data.isPrefixOf s.data

/-- `str.endswith` on strings. -/
def endsWithStr (s suf : String) : Bool :=
  suf.data.isSuffixOf s.data

/-- Python `str.strip()`: remove surrounding whitespace. -/
def pyStrip (s : String) : String :=
  ⟨((s.data.dropWhile Char.isWhitespace).reverse.dropWhile Char.isWhitespace).reverse⟩

/-- Python `str.lower()` (ASCII model; the scripts' inputs are already
lower-cased where accented case matters). -/
def lowerStr (s : String) : String :=
  ⟨s.data.map Char.toLower⟩

/-- Python `str.split()` with no argument: split on whitespace runs,
dropping empty pieces. -/
def pySplitWs (s : String) : List String :=
  (((splitOnChar ' ' [] (s.data.map (fun c => if c.isWhitespace then ' ' else c))).filter
    (fun p => decide (p ≠ []))).map (fun p => (⟨p⟩ : String)))

/-- Value of a hexadecimal digit, if any (for percent-decoding). -/
def hexVal (c : Char) : Option Nat :=
  if '0' ≤ c ∧ c ≤ '9' then some (c.toNat - '0'.toNat)
  else if 'a' ≤ c ∧ c ≤ 'f' then some (c.toNat - 'a'.toNat + 10)
  else if 'A' ≤ c ∧ c ≤ 'F' then some (c.toNat - 'A'.toNat + 10)
  else none

/-- `urllib.parse.unquote` (single-byte model of percent-decoding; the
scripts' paths contain at most ASCII escapes). -/
def unquoteL : List Char → List Char
  | '%' :: a :: b :: rest =>
    match hexVal a, hexVal b with
    | some x, some y => Char.ofNat (16 * x + y) :: unquoteL rest
    | _, _ => '%' :: unquoteL (a :: b :: rest)
  | c :: rest => c :: unquoteL rest
  | [] => []

def unquote (s : String) : String := ⟨unquoteL s.data⟩

/-- One step of `os.path.normpath` segment processing. The accumulator
holds the kept segments in reverse order. -/
def normStep (isAbs : Bool) (acc : List (List Char)) (seg : List Char) : List (List Char) :=
  if seg = [] ∨ seg = ['.'] then acc
  else if seg = ['.', '.'] then
    match acc with
    | [] => if isAbs then [] else [seg]
    | a :: rest => if a = ['.', '.'] then seg :: acc else rest
  else seg :: acc

/-- `os.path.normpath` for POSIX paths: collapse `.` and `..`, drop empty
segments; `..` at the root of an absolute path is dropped. -/
def normpathStr (s : String) : String :=
  let cs := s.data
  let isAbs := cs.head? = some '/'
  let segs := (splitOnChar '/' [] cs).foldl (normStep isAbs) []
  let body := joinWithChar '/' segs.reverse
  if isAbs then ⟨'/' :: body⟩
  else if body = [] then "." else ⟨body⟩

/-- Two-argument `posixpath.join`. -/
def osJoin (a b : String) : String :=
  if b.data.head? = some '/' then b
  else if a.data = [] then b
  else if a.data.getLast? = some '/' then ⟨a.data ++ b.data⟩
  else ⟨a.data ++ '/' :: b.data⟩

/-- `posixpath.dirname`: the part before the last `/`, with trailing
slashes stripped unless the result is all slashes. -/
def osDirname (s : String) : String :=
  let head := ((s.data.reverse.dropWhile (fun c => decide (c ≠ '/')))).reverse
  if head ≠ [] ∧ ¬ head.all (fun c => decide (c = '/')) then
    ⟨(head.reverse.dropWhile (fun c => decide (c = '/'))).reverse⟩
  else ⟨head⟩

/-- `posixpath.basename`: the part after the last `/`. -/
def osBasename (s : String) : String :=
  ⟨(s.data.reverse.takeWhile (fun c => decide (c ≠ '/'))).reverse⟩

/-- `str.lstrip('/')`. -/
def lstripSlash (s : String) : String :=
  ⟨s.data.dropWhile (fun c => decide (c = '/'))⟩

/-- Length of the common prefix of two segment lists. -/
def commonPrefixLen : List (List Char) → List (List Char) → Nat
  | a :: as, b :: bs => if a = b then commonPrefixLen as bs + 1 else 0
  | _, _ => 0

/-- `posixpath.relpath(p, start)` for absolute, already-normalized
arguments: drop the common segment prefix, prepend one `..` per remaining
segment of `start`. -/
def osRelpath (p start : String) : String :=
  let pl := (splitOnChar '/' [] p.data).filter (fun seg => decide (seg ≠ []))
  let sl := (splitOnChar '/' [] start.data).filter (fun seg => decide (seg ≠ []))
  let i := commonPrefixLen pl sl
  let rel := (List.replicate (sl.length - i) ['.', '.']) ++ pl.drop i
  if rel = [] then "." else ⟨joinWithChar '/' rel⟩

/-! ## `urllib.parse.urlparse` (the fields the scripts read) -/

structure ParsedHref where
  scheme : String
  netloc : String
  path : String
  fragment : String
deriving Repr, DecidableEq

def schemeChar1 (c : Char) : Bool := c.isAlpha

def schemeCharR (c : Char) : Bool :=
  c.isAlpha || c.isDigit || c = '+' || c = '-' || c = '.'

/-- Split off `scheme:` if the prefix before the first `:` is a valid
scheme (nonempty, letter first, letters/digits/`+`/`-`/`.`). -/
def extractScheme (cs : List Char) : List Char × List Char :=
  let pre := cs.takeWhile (fun c => decide (c ≠ ':'))
  if pre.length < cs.length ∧ pre ≠ [] ∧
      schemeChar1 (pre.headD 'a') ∧ pre.all schemeCharR then
    (pre.map Char.toLower, cs.drop (pre.length + 1))
  else ([], cs)

/-- `urlparse` restricted to scheme / netloc / path / fragment (query and
params are split off and dropped, as the scripts never read them). -/
def urlparseF (href : String) : ParsedHref :=
  let cs := href.data
  let beforeFrag := cs.takeWhile (fun c => decide (c ≠ '#'))
  let frag := (cs.drop (beforeFrag.length + 1)).take cs.length
  let (scheme, rest1) := extractScheme beforeFrag
  let (netloc, rest2) :=
    if ['/', '/'].isPrefixOf rest1 then
      let nl := (rest1.drop 2).takeWhile (fun c => decide (c ≠ '/' ∧ c ≠ '?'))
      (nl, (rest1.drop 2).drop nl.length)
    else ([], rest1)
  let path := rest2.takeWhile (fun c => decide (c ≠ '?'))
  { scheme := ⟨scheme⟩, netloc := ⟨netloc⟩, path := ⟨path⟩,
    fragment := if beforeFrag.length = cs.length then "" else ⟨frag⟩ }

def PORTUGUESE_STOPWORDS : List String := [
  "de", "a", "o", "que", "e", "do", "da", "em", "um", "para",
  "é", "com", "não", "uma", "os", "no", "na", "por", "mais", "as",
  "dos", "como", "mas", "foi", "ao", "ele", "das", "tem", "à", "seu",
  "sua", "ou", "ser", "quando", "muito", "há", "nos", "já", "está", "eu",
  "também", "só", "pelo", "pela", "até", "isso", "ela", "entre", "era", "depois",
  "sem", "mesmo", "aos", "ter", "seus", "quem", "nas", "me", "esse", "eles",
  "estão", "você", "tinha", "foram", "essa", "num", "nem", "suas", "meu", "às",
  "minha", "têm", "numa", "pelos", "elas", "havia", "seja", "qual", "será", "nós",
  "tenho", "lhe", "deles", "essas", "esses", "pelas", "este", "fosse", "dele", "tu",
  "te", "vocês", "vos", "lhes", "meus", "minhas", "teu", "tua", "teus", "tuas",
  "nosso", "nossa", "nossos", "nossas", "dela", "delas", "esta", "estes", "estas", "aquele",
  "aquela", "aqueles", "aquelas", "isto", "aquilo", "estou", "está", "estamos", "estão", "estive",
  "esteve", "estivemos", "estiveram", "estava", "estávamos", "estavam", "estivera", "estivéramos", "esteja", "estejamos",
  "estejam", "estivesse", "estivéssemos", "estivessem", "estiver", "estivermos", "estiverem", "hei", "há", "havemos",
  "hão", "houve", "houvemos", "houveram", "houvera", "houvéramos", "haja", "hajamos", "hajam", "houvesse",
  "houvéssemos", "houvessem", "houver", "houvermos", "houverem", "houverei", "houverá", "houveremos", "houverão", "houveria",
  "houveríamos", "houveriam", "sou", "somos", "são", "era", "éramos", "eram", "fui", "foi",
  "fomos", "foram", "fora", "fôramos", "seja", "sejamos", "sejam", "fosse", "fôssemos", "fossem",
  "for", "formos", "forem", "serei", "será", "seremos", "serão", "seria", "seríamos", "seriam",
  "tenho", "tem", "temos", "tém", "tinha", "tínhamos", "tinham", "tive", "teve", "tivemos",
  "tiveram", "tivera", "tivéramos", "tenha", "tenhamos", "tenham", "tivesse", "tivéssemos", "tivessem", "tiver",
  "tivermos", "tiverem", "terei", "terá", "teremos", "terão", "teria", "teríamos", "teriam", "sobre",
  "qualquer", "todo", "todos", "toda", "todas", "outro", "outra", "outros", "outras", "tal",
  "tais", "mesma", "mesmos", "mesmas", "grande", "pequeno", "pouco", "muita", "algum", "alguma",
  "alguns", "algumas", "assim", "então", "logo", "porque", "pois", "onde", "quando", "enquanto",
  "sempre", "nunca", "agora", "hoje", "ontem", "amanhã", "cedo", "tarde", "aqui", "ali",
  "lá", "dentro", "fora", "acima", "abaixo", "frente", "atrás", "cada", "coisa", "caso",
  "cujo", "etc", "mim", "si", "consigo", "tipo", "ainda", "poder", "pode", "deve",
  "devem", "fazer", "dizer", "quer", "quê", "quem", "serão", "àquele", "àquela", "naquele",
  "naquela", "neste", "nesta", "nisto", "nisso", "daqui", "dali", "desta", "deste", "daquele",
  "daquela"]

/-- A regex word character: ASCII alphanumerics, underscore, and the
accented letters occurring in the site's Portuguese text. -/
def isWordChar (c : Char) : Bool :=
  c.isAlphanum || c = '_' ||
    ['á', 'é', 'í', 'ó', 'ú', 'â', 'ê', 'ô', 'ã', 'õ', 'ç', 'ü',
     'Á', 'É', 'Í', 'Ó', 'Ú', 'Â', 'Ê', 'Ô', 'Ã', 'Õ', 'Ç', 'Ü'].contains c

/-- A character of the letter-or-hyphen class used by the scripts'
token-extraction regexes: letters (plus the accented ones) or a hyphen. -/
def isTokenCharLH (c : Char) : Bool :=
  c.isAlpha || c = '-' ||
    ['á', 'é', 'í', 'ó', 'ú', 'â', 'ê', 'ô', 'ã', 'õ', 'ç', 'ü',
     'Á', 'É', 'Í', 'Ó', 'Ú', 'Â', 'Ê', 'Ô', 'Ã', 'Õ', 'Ç', 'Ü'].contains c

/-- Maximal runs of characters satisfying `p` (the accumulator holds the
current run in reverse). -/
def tokenizeAux (p : Char → Bool) (cur : List Char) : List Char → List (List Char)
  | [] => if cur = [] then [] else [cur.reverse]
  | c :: cs =>
    if p c then tokenizeAux p (c :: cur) cs
    else if cur = [] then tokenizeAux p [] cs
    else cur.reverse :: tokenizeAux p [] cs

/-- The findall of three-plus-letter tokens over the letter/hyphen class,
modelled as the maximal runs of that class of length at least 3 (exact for
text in which tokens are delimited by characters outside the class and
outside the word class, as in the space-joined element text the scripts
scan). -/
def findTokensLH (s : String) : List String :=
  ((tokenizeAux isTokenCharLH [] s.data).filter
    (fun t => decide (3 ≤ t.length))).map (fun t => (⟨t⟩ : String))

/-- The findall of three-plus-character word tokens used by
suggest_orphan_links for title words: maximal runs of word characters of
length at least 3. -/
def findTokensW (s : String) : List String :=
  ((tokenizeAux isWordChar [] s.data).filter
    (fun t => decide (3 ≤ t.length))).map (fun t => (⟨t⟩ : String))

/-- Word boundary between two adjacent positions: the wordness of the
characters differs (`none` = outside the string, non-word). -/
def bdOk (a b : Option Char) : Bool :=
  (match a with | none => false | some c => isWordChar c) !=
    (match b with | none => false | some c => isWordChar c)

/-- Does the whole-word pattern for `term` match at the start of `text`
(whose preceding character is `prev`)?  Exact for the escaped literal
terms the scripts search for. -/
def matchHere (term text : List Char) (prev : Option Char) : Bool :=
  term.isPrefixOf text && bdOk prev term.head? &&
    bdOk ((text.drop (term.length - 1)).head?) ((text.drop term.length).head?)

def findWholeWordPosAux (term : List Char) (prev : Option Char) (i : Nat) :
    List Char → Option Nat
  | [] => none
  | c :: rest =>
    if matchHere term (c :: rest) prev then some i
    else findWholeWordPosAux term (some c) (i + 1) rest

/-- Position of the first whole-word occurrence of `term` in `text`:
the regex search for the escaped term between word boundaries. -/
def findWholeWordPos (text term : List Char) : Option Nat :=
  findWholeWordPosAux term none 0 text

/-- Whether the whole-word regex search for `term` succeeds in `text`. -/
def containsWholeWord (text term : String) : Bool :=
  (findWholeWordPos text.data term.data).isSome

/-! ## Filesystem and document model -/

/-- The filesystem state a run observes: the absolute, normalized site
root, the existing files and directories, and the anchor ids (`id=` or
`<a name=>`) the parser finds inside each file. -/
structure SiteFS where
  root : String
  files : List String
  dirs : List String
  anchors : List (String × List String)
deriving Repr, DecidableEq

def SiteFS.isfile (fs : SiteFS) (p : String) : Bool := memStr p fs.files

def SiteFS.isdir (fs : SiteFS) (p : String) : Bool := memStr p fs.dirs

def anchorsOf (fs : SiteFS) (p : String) : List String :=
  match fs.anchors.find? (fun a => decide (a.1 = p)) with
  | some a => a.2
  | none => []

/-- One checkable tag occurrence (`a`/`link` href, `img`/`script` src) in
document order, with the `rel` values of `link` tags. -/
structure CheckTag where
  tagName : String
  url : String
  rel : List String
deriving Repr, DecidableEq

/-- What the scripts read from one successfully parsed HTML page.  The
HTML parser is an external collaborator, so its outputs are taken as
data: the `<title>` string (`none` if the tag is absent or has no
string), the `content` of `<meta name="keywords">` (`none` if absent),
the space-joined text of the two element whitelists, the hrefs of its
anchor tags, and every checkable tag. -/
structure DocContent where
  titleStr : Option String
  metaKeywords : Option String
  textOpp : String
  textSug : String
  hrefs : List String
  checkLinks : List CheckTag
deriving Repr, DecidableEq

/-- One HTML file found by the glob: its absolute path plus its parse
result (`none` models a read or parse exception for that file). -/
structure HtmlDoc where
  abs : String
  parse : Option DocContent
deriving Repr, DecidableEq

/-! ## The shared link resolver
(`resolve_internal_link_target` of find_orphaned_pages.py,
suggest_orphan_links.py and find_internal_link_opportunities.py) -/

/-- `normalize_path` as defined identically in all three scripts:
`os.path.normpath(unquote(p)).replace(os.sep, '/')` (the replace is the
identity on POSIX). -/
def normalize_path (s : String) : String := normpathStr (unquote s)

/-- The guard shared verbatim by the three resolvers: external links
(scheme or netloc present), `mailto:`/`tel:`/`javascript:` links,
same-page fragments (`#...`) and blank hrefs are not resolved. -/
def href_is_skipped (href : String) : Bool :=
  let ph := urlparseF href
  ph.scheme ≠ "" || ph.netloc ≠ "" ||
    startsWithStr href "mailto:" || startsWithStr href "tel:" ||
    startsWithStr href "javascript:" || startsWithStr href "#" ||
    pyStrip href = ""

/-- The normalized absolute target a href denotes, shared verbatim by the
three scripts' resolvers: absolute hrefs are joined under the site root,
relative hrefs under the source file's directory, then normalized. -/
def target_abs_norm (fs : SiteFS) (href srcRel : String) : String :=
  let pathPart := (urlparseF href).path
  let targetAbs :=
    if startsWithStr pathPart "/" then osJoin fs.root (lstripSlash pathPart)
    else osJoin (osDirname (osJoin fs.root srcRel)) pathPart
  normalize_path targetAbs

/-- Directory handling of find_orphaned_pages.py / suggest_orphan_links.py:
a directory with an `index.html` becomes that file; a directory
**without** one is kept as-is (the `return None` branch is commented out
in those scripts). -/
def orphans_dir_step (fs : SiteFS) (n : String) : String :=
  if fs.isdir n then
    let idx := normalize_path (osJoin n "index.html")
    if fs.isfile idx then idx else n
  else n

/-- Directory handling of find_internal_link_opportunities.py: a
directory with an `index.html` becomes that file; a directory without one
does not resolve (`return None`). -/
def opp_dir_step (fs : SiteFS) (n : String) : Option String :=
  if fs.isdir n then
    let idx := normalize_path (osJoin n "index.html")
    if fs.isfile idx then some idx else none
  else some n

/-- `resolve_internal_link_target` of find_orphaned_pages.py (the same
code appears in suggest_orphan_links.py): skip guard, join and normalize,
directory step, then the string-prefix containment check against the
normalized site root, finally the root-relative normalized path. -/
def resolve_internal_link_target_orphans (fs : SiteFS) (href srcRel : String) :
    Option String :=
  if href_is_skipped href then none
  else
    let n := orphans_dir_step fs (target_abs_norm fs href srcRel)
    if ¬ startsWithStr n (normalize_path fs.root) then none
    else some (normalize_path (osRelpath n fs.root))

/-- `resolve_internal_link_target` of find_internal_link_opportunities.py:
like the orphan-script resolver but the directory step can fail, and the
result must be an existing file whose name ends in `.html`. -/
def resolve_internal_link_target_opp (fs : SiteFS) (href srcRel : String) :
    Option String :=
  if href_is_skipped href then none
  else
    match opp_dir_step fs (target_abs_norm fs href srcRel) with
    | none => none
    | some n =>
      if ¬ fs.isfile n ∨ ¬ endsWithStr n ".html" then none
      else if ¬ startsWithStr n (normalize_path fs.root) then none
      else some (normalize_path (osRelpath n fs.root))

/-- The root-relative normalized path the scripts compute for a globbed
file (`normalize_path(os.path.relpath(abs, site_root_abs))`). -/
def relOf (fs : SiteFS) (d : HtmlDoc) : String :=
  normalize_path (osRelpath d.abs fs.root)

/-! ## Sorting (Python `sorted` on strings, stable `list.sort` by count) -/

/-- Code-point lexicographic order on character lists (Python `<` on
strings). -/
def lexLt : List Char → List Char → Bool
  | [], [] => false
  | [], _ :: _ => true
  | _ :: _, [] => false
  | a :: as, b :: bs => if a = b then lexLt as bs else decide (a.toNat < b.toNat)

def strLt (a b : String) : Bool := lexLt a.data b.data

def insertSortedStr (x : String) : List String → List String
  | [] => [x]
  | y :: ys => if strLt x y then x :: y :: ys else y :: insertSortedStr x ys

/-- `sorted(list_of_paths)`: insertion sort by code-point order. -/
def sortStr (l : List String) : List String := l.foldr insertSortedStr []

/-- Stable insertion for a descending sort keyed by `f`: an element is
placed before the first element whose key is not larger, so equal-key
elements keep their original relative order. -/
def insertDescBy (f : α → Nat) (x : α) : List α → List α
  | [] => [x]
  | y :: ys => if f y ≤ f x then x :: y :: ys else y :: insertDescBy f x ys

/-- `list.sort(key=..., reverse=True)`: a stable descending sort by the
key `f`, modelled as stable insertion sort (extensionally equal to any
stable descending sort). -/
def sortDescBy (f : α → Nat) : List α → List α
  | [] => []
  | x :: xs => insertDescBy f x (sortDescBy f xs)

/-- Decidable adjacent-pairs check that a list is sorted by descending
key. -/
def isSortedDescBy (f : α → Nat) : List α → Bool
  | [] => true
  | [_] => true
  | x :: y :: r => decide (f y ≤ f x) && isSortedDescBy f (y :: r)

/-! ## find_orphaned_pages.py -/

/-- The internal-link targets one document contributes in the orphan
scan: each anchor href resolved by the orphan-script resolver, kept when
the result is truthy and an existing site HTML file.  A document whose
read or parse raised contributes nothing (the except branch only
prints). -/
def orphanDocTargets (fs : SiteFS) (all : List String) (d : HtmlDoc) : List String :=
  match d.parse with
  | none => []
  | some c =>
    c.hrefs.foldl (fun acc href =>
      match resolve_internal_link_target_orphans fs href (relOf fs d) with
      | some t => if t ≠ "" ∧ memStr t all then insertStr t acc else acc
      | none => acc) []

/-- `find_orphaned_pages_in_site`: discover all HTML files (first glob
pass), then union every document's resolved internal-link targets
(second pass), and return the sorted set difference.  The homepage block
at the end of the source is a `pass` (no filtering). -/
def find_orphaned_pages_in_site (fs : SiteFS) (docs : List HtmlDoc) : List String :=
  let all := dedupStr (docs.map (relOf fs))
  if all = [] then []
  else
    let linked := docs.foldl (fun acc d =>
      (orphanDocTargets fs all d).foldl (fun acc2 t => insertStr t acc2) acc) []
    sortStr (all.filter (fun p => ¬ memStr p linked))

/-! ## find_internal_link_opportunities.py -/

/-- Per-page data collected by the first pass of
`get_site_data_and_link_map`. -/
structure PageData where
  title : String
  keywords_set : List String
  text_content_for_matching : String
  raw_text_content_for_snippet : String
deriving Repr, DecidableEq

/-- The first-pass entry for a successfully parsed page: title (or the
file's basename when the tag is missing or empty), the filtered
lower-cased keyword set, the stopword-filtered matching text, and the
full lower-cased text kept for snippets. -/
def mkPageDataEntry (rel : String) (c : DocContent) : PageData :=
  let page_title :=
    match c.titleStr with
    | some t => if t ≠ "" then pyStrip t else osBasename rel
    | none => osBasename rel
  let raw_keywords :=
    match c.metaKeywords with
    | some k => if k ≠ "" then pyStrip k else ""
    | none => ""
  let page_keywords_set := dedupStr
    (((splitOnChar ',' [] raw_keywords.data).map (fun k => (⟨k⟩ : String))).filterMap
      (fun k =>
        if pyStrip k ≠ "" ∧ 2 < (pyStrip k).data.length ∧
            ¬ memStr (lowerStr (pyStrip k)) PORTUGUESE_STOPWORDS then
          some (lowerStr (pyStrip k))
        else none))
  let full := lowerStr c.textOpp
  let page_text_for_matching :=
    ⟨joinWithChar ' ' (((findTokensLH full).filter
      (fun w => ¬ memStr w PORTUGUESE_STOPWORDS)).map String.data)⟩
  { title := page_title
    keywords_set := page_keywords_set
    text_content_for_matching := page_text_for_matching
    raw_text_content_for_snippet := full }

/-- The first-pass entry recorded when reading or parsing a page raises:
basename title and empty fields. -/
def oppFailedEntry (rel : String) : PageData :=
  { title := osBasename rel
    keywords_set := []
    text_content_for_matching := ""
    raw_text_content_for_snippet := "" }

/-- The outgoing-link set the second pass builds for one document: anchor
hrefs resolved by the opportunity-script resolver, kept when truthy and
an existing site HTML file.  A failing document keeps its initialized
empty set. -/
def oppDocTargets (fs : SiteFS) (all : List String) (d : HtmlDoc) : List String :=
  match d.parse with
  | none => []
  | some c =>
    c.hrefs.foldl (fun acc href =>
      match resolve_internal_link_target_opp fs href (relOf fs d) with
      | some t => if t ≠ "" ∧ memStr t all then insertStr t acc else acc
      | none => acc) []

/-- `get_site_data_and_link_map`: the sorted list of site HTML files, the
per-page data map, and the outgoing-link map. -/
def get_site_data_and_link_map (fs : SiteFS) (docs : List HtmlDoc) :
    List String × List (String × PageData) × List (String × List String) :=
  let all_html_files := dedupStr (docs.map (relOf fs))
  let page_data := docs.map (fun d =>
    (relOf fs d,
      match d.parse with
      | some c => mkPageDataEntry (relOf fs d) c
      | none => oppFailedEntry (relOf fs d)))
  let outgoing := docs.map (fun d => (relOf fs d, oppDocTargets fs all_html_files d))
  (sortStr all_html_files, page_data, outgoing)

/-- Dict lookup in the page-data map. -/
def lookupPD (m : List (String × PageData)) (k : String) : Option PageData :=
  match m.find? (fun a => decide (a.1 = k)) with
  | some a => some a.2
  | none => none

/-- `outgoing_link_map.get(source, set())`. -/
def lookupLM (m : List (String × List String)) (k : String) : List String :=
  match m.find? (fun a => decide (a.1 = k)) with
  | some a => a.2
  | none => []

/-- One suggested linking opportunity. -/
structure Opportunity where
  source_page : String
  source_page_title : String
  matching_terms_count : Nat
  matched_terms_list : List String
  context_snippet : String
deriving Repr, DecidableEq

/-- The context snippet around the first matched term: 60 characters of
the snippet text either side, whitespace collapsed, wrapped in dots
(empty when the term is not found in the snippet copy). -/
def mkSnippet (found : List String) (snip : String) : String :=
  match found.head? with
  | none => ""
  | some term =>
    match findWholeWordPos snip.data term.data with
    | none => ""
    | some pos =>
      let start := pos - 60
      let stop := min snip.data.length (pos + term.data.length + 60)
      let raw := (snip.data.drop start).take (stop - start)
      "..." ++ ⟨joinWithChar ' ' ((pySplitWs ⟨raw⟩).map String.data)⟩ ++ "..."

/-- The topic terms of a target page: its stopword-filtered title tokens
united with its (already filtered) keyword set. -/
def topicTermsOpp (page_data : List (String × PageData)) (target : String) :
    List String :=
  match lookupPD page_data target with
  | none => []
  | some tinfo =>
    let target_title_words := dedupStr
      ((findTokensLH (lowerStr tinfo.title)).filter
        (fun w => ¬ memStr w PORTUGUESE_STOPWORDS))
    dedupStr (target_title_words ++ tinfo.keywords_set)

/-- The inner source-page loop of `suggest_internal_linking_opportunities`
for one target: every other page that does not already link to the target
and whose matching text contains at least one topic term yields an
`Opportunity`, in discovery order. -/
def opportunity_candidates (all_html_files : List String)
    (page_data : List (String × PageData))
    (outgoing : List (String × List String))
    (target : String) (topic : List String) : List Opportunity :=
  all_html_files.foldl (fun acc src =>
    if src = target then acc
    else
      match lookupPD page_data src with
      | none => acc
      | some sinfo =>
        if memStr target (lookupLM outgoing src) then acc
        else
          let found := topic.filter
            (fun term => containsWholeWord sinfo.text_content_for_matching term)
          if found = [] then acc
          else acc ++ [{ source_page := src
                         source_page_title := sinfo.title
                         matching_terms_count := found.length
                         matched_terms_list := sortStr found
                         context_snippet :=
                           mkSnippet found sinfo.raw_text_content_for_snippet }]) []

/-- `suggest_internal_linking_opportunities`: for every target page with
a nonempty topic-term set, the candidate list sorted stably by descending
match count. -/
def suggest_internal_linking_opportunities (all_html_files : List String)
    (page_data : List (String × PageData))
    (outgoing : List (String × List String)) :
    List (String × List Opportunity) :=
  all_html_files.filterMap (fun target =>
    match lookupPD page_data target with
    | none => none
    | some _ =>
      let topic := topicTermsOpp page_data target
      if topic = [] then none
      else some (target,
        sortDescBy Opportunity.matching_terms_count
          (opportunity_candidates all_html_files page_data outgoing target topic)))

/-! ## suggest_orphan_links.py -/

/-- Per-page data collected by `get_all_html_files_and_links`. -/
structure SugPageData where
  title : String
  keywords : List String
  text_content : String
deriving Repr, DecidableEq

/-- The page-data entry for a successfully parsed page in
suggest_orphan_links (title string or empty, trimmed lower-cased comma
keywords, lower-cased text of the reduced element whitelist). -/
def mkSugEntry (c : DocContent) : SugPageData :=
  let page_title :=
    match c.titleStr with
    | some t => if t ≠ "" then pyStrip t else ""
    | none => ""
  let page_keywords :=
    match c.metaKeywords with
    | some k => if k ≠ "" then lowerStr (pyStrip k) else ""
    | none => ""
  { title := page_title
    keywords := dedupStr
      (((splitOnChar ',' [] page_keywords.data).map (fun k => (⟨k⟩ : String))).filterMap
        (fun k => if pyStrip k ≠ "" then some (pyStrip k) else none))
    text_content := lowerStr c.textSug }

/-- The page-data entry recorded for one file by
`get_all_html_files_and_links` (the except branch records an entry with
empty fields). -/
def sugEntryOf (d : HtmlDoc) : SugPageData :=
  match d.parse with
  | none => { title := "", keywords := [], text_content := "" }
  | some c => mkSugEntry c

/-- One iteration of the single loop of `get_all_html_files_and_links`
over the state (file set so far, linked set so far, page-data so far). -/
def sugStep (fs : SiteFS) (st : List String × List String × List (String × SugPageData))
    (d : HtmlDoc) : List String × List String × List (String × SugPageData) :=
  let all := insertStr (relOf fs d) st.1
  match d.parse with
  | none => (all, st.2.1, st.2.2 ++ [(relOf fs d, sugEntryOf d)])
  | some c =>
    let linked := c.hrefs.foldl (fun acc href =>
      match resolve_internal_link_target_orphans fs href (relOf fs d) with
      | some t => if t ≠ "" ∧ memStr t all then insertStr t acc else acc
      | none => acc) st.2.1
    (all, linked, st.2.2 ++ [(relOf fs d, sugEntryOf d)])

/-- `get_all_html_files_and_links`: a SINGLE pass that simultaneously
discovers files, collects page data, and records internal-link targets.
A resolved target is only counted when it is already in the
`all_site_html_files` set built so far, so whether a link from A to B is
counted depends on the enumeration order.  Returns the sorted orphan
list, the page-data map, and the file set. -/
def get_all_html_files_and_links (fs : SiteFS) (docs : List HtmlDoc) :
    List String × List (String × SugPageData) × List String :=
  let fin := docs.foldl (sugStep fs) ([], [], [])
  let orphaned := fin.1.filter (fun p => ¬ memStr p fin.2.1)
  (sortStr orphaned, fin.2.2, fin.1)

def lookupSug (m : List (String × SugPageData)) (k : String) : Option SugPageData :=
  match m.find? (fun a => decide (a.1 = k)) with
  | some a => some a.2
  | none => none

/-- One suggestion for linking an orphan page. -/
structure OrphanSuggestion where
  link_from_page : String
  matching_terms_count : Nat
  source_page_title : String
deriving Repr, DecidableEq

/-- The candidate loop of `suggest_linking_opportunities` for one orphan:
every non-orphan page whose text contains at least one search term (terms
shorter than 3 characters are skipped inside the loop), in the candidate
list's order. -/
def orphan_link_candidates (non_orphan_pages : List String)
    (page_data : List (String × SugPageData))
    (search_terms : List String) : List OrphanSuggestion :=
  non_orphan_pages.foldl (fun acc src =>
    match lookupSug page_data src with
    | none => acc
    | some sinfo =>
      let cnt := (search_terms.filter (fun term =>
        term ≠ "" ∧ 2 < term.data.length ∧
          containsWholeWord sinfo.text_content term)).length
      if 0 < cnt then
        acc ++ [{ link_from_page := src
                  matching_terms_count := cnt
                  source_page_title := sinfo.title }]
      else acc) []

/-- The search terms of an orphan page: word tokens (length at least 3)
of its lower-cased title united with its keyword set. -/
def orphanSearchTerms (page_data : List (String × SugPageData)) (orphan : String) :
    List String :=
  match lookupSug page_data orphan with
  | none => []
  | some oinfo =>
    dedupStr (dedupStr (findTokensW (lowerStr oinfo.title)) ++ oinfo.keywords)

/-- `suggest_linking_opportunities`: candidate sources are all pages
minus the orphans; each orphan with a nonempty search-term set gets its
candidate list sorted stably by descending match count. -/
def suggest_linking_opportunities (orphaned_pages : List String)
    (page_data : List (String × SugPageData))
    (all_html_files : List String) :
    List (String × List OrphanSuggestion) :=
  let non_orphan_pages := all_html_files.filter (fun p => ¬ memStr p orphaned_pages)
  orphaned_pages.filterMap (fun orphan =>
    match lookupSug page_data orphan with
    | none => none
    | some _ =>
      let search_terms := orphanSearchTerms page_data orphan
      if search_terms = [] then none
      else some (orphan,
        sortDescBy OrphanSuggestion.matching_terms_count
          (orphan_link_candidates non_orphan_pages page_data search_terms)))

/-! ## link_checker.py -/

/-- Python `str.replace(pat, '')`: remove every occurrence of `pat`. -/
def removeAllOcc (pat : List Char) : List Char → List Char
  | [] => []
  | c :: cs =>
    if h : pat ≠ [] ∧ pat.isPrefixOf (c :: cs) then
      removeAllOcc pat ((c :: cs).drop pat.length)
    else c :: removeAllOcc pat cs
termination_by l => l.length
decreasing_by
  · have hp : 0 < pat.length := List.length_pos.mpr h.1
    simp only [List.length_drop, List.length_cons]
    omega
  · simp

/-- `path.replace(site_root_abs, '').lstrip(os.sep)`, the display path
used in the checker's messages. -/
def relMsg (fs : SiteFS) (p : String) : String :=
  lstripSlash ⟨removeAllOcc fs.root.data p.data⟩

/-- `_resolve_internal_link_path`: a fragment-only href points at the
source file itself; otherwise absolute hrefs are joined under the site
root and relative hrefs under the source file's directory, then
normalized (no percent-decoding here, unlike the other scripts). -/
def linkChecker_resolve_internal_link_path (fs : SiteFS) (href srcAbs : String) :
    String × String :=
  let ph := urlparseF href
  if ph.path = "" then (normpathStr srcAbs, ph.fragment)
  else if startsWithStr ph.path "/" then
    (normpathStr (osJoin fs.root (lstripSlash ph.path)), ph.fragment)
  else (normpathStr (osJoin (osDirname srcAbs) ph.path), ph.fragment)

/-- The structured form of `_check_internal_link_target`'s
`(bool, message)` result: one constructor per return site in the
source. -/
inductive InternalCheckResult where
  | ok
  | outsideSite (rel : String)
  | dirWithoutIndex (rel : String)
  | fileNotFound (rel : String)
  | anchorNotFound (fragment rel : String)
deriving Repr, DecidableEq

def InternalCheckResult.passed : InternalCheckResult → Bool
  | .ok => true
  | _ => false

/-- `_check_internal_link_target`: the string-prefix containment check
against the site root, the directory-to-index substitution (reported as
broken when the directory has no `index.html`), file existence, and the
anchor-existence check for fragments. -/
def linkChecker_check_internal_link_target (fs : SiteFS)
    (targetAbs fragment : String) : InternalCheckResult :=
  if ¬ startsWithStr targetAbs fs.root then .outsideSite (relMsg fs targetAbs)
  else
    let step : Option String :=
      if fs.isdir targetAbs then
        let idx := osJoin targetAbs "index.html"
        if fs.isfile idx then some idx else none
      else some targetAbs
    match step with
    | none => .dirWithoutIndex (relMsg fs targetAbs)
    | some actual =>
      if ¬ fs.isfile actual then .fileNotFound (relMsg fs actual)
      else if fragment ≠ "" ∧ ¬ memStr fragment (anchorsOf fs actual) then
        .anchorNotFound fragment (relMsg fs actual)
      else .ok

/-- The outcome of one HTTP request: a status code, or one of the caught
`requests` exceptions. -/
inductive NetOutcome where
  | status (code : Nat)
  | timeout
  | tooManyRedirects
  | requestError
  | otherError
deriving Repr, DecidableEq

/-- The result of `_fetch_external_link`, instrumented with whether the
GET fallback was issued. -/
structure FetchResult where
  ok : Bool
  finalStatus : Option Nat
  getIssued : Bool
deriving Repr, DecidableEq

/-- `_fetch_external_link`: try HEAD; when the HEAD status is at least
400, issue a GET and use its status as the authoritative one; succeed
exactly when the final status is below 400.  Exceptions from either
request are caught and reported as failures (`finalStatus = none`). -/
def fetch_external_link (head get : NetOutcome) : FetchResult :=
  match head with
  | .status h =>
    if 400 ≤ h then
      match get with
      | .status g =>
        { ok := decide (g < 400), finalStatus := some g, getIssued := true }
      | _ => { ok := false, finalStatus := none, getIssued := true }
    else { ok := decide (h < 400), finalStatus := some h, getIssued := false }
  | _ => { ok := false, finalStatus := none, getIssued := false }

/-- The structured form of `_check_one_link`'s `(bool, message)`. -/
inductive CheckOutcome where
  | skippedNonNav
  | skippedExternal
  | external (r : FetchResult)
  | internal (r : InternalCheckResult)
deriving Repr, DecidableEq

def CheckOutcome.passed : CheckOutcome → Bool
  | .skippedNonNav => true
  | .skippedExternal => true
  | .external r => r.ok
  | .internal r => r.passed

/-- `_check_one_link`.  The external-URL oracle `net` maps a URL to the
outcomes its HEAD and (if issued) GET requests would produce; the
process-lifetime cache of the source memoizes exactly this pure mapping
within one run, so it is dropped from the model. -/
def check_one_link (fs : SiteFS) (net : String → NetOutcome × NetOutcome)
    (checkExternal : Bool) (href srcAbs : String) : CheckOutcome :=
  if href = "" ∨ startsWithStr href "mailto:" ∨ startsWithStr href "tel:" ∨
      startsWithStr href "data:" ∨ startsWithStr href "javascript:" then
    .skippedNonNav
  else
    let ph := urlparseF href
    if ph.scheme ≠ "" ∧ ph.netloc ≠ "" then
      if ¬ checkExternal then .skippedExternal
      else .external (fetch_external_link (net href).1 (net href).2)
    else
      let tf :=
        if startsWithStr href "#" then (⟨srcAbs.data⟩, (⟨href.data.drop 1⟩ : String))
        else linkChecker_resolve_internal_link_path fs href srcAbs
      .internal (linkChecker_check_internal_link_target fs tf.1 tf.2)

/-- One broken-link report entry. -/
inductive IssueStatus where
  | readError
  | failed (o : CheckOutcome)
deriving Repr, DecidableEq

structure LinkIssue where
  source : String
  tag : String
  href : String
  status : IssueStatus
deriving Repr, DecidableEq

/-- The `rel` filter applied to `<link>` tags. -/
def relFilterOk (t : CheckTag) : Bool :=
  t.tagName ≠ "link" ∨
    ["stylesheet", "icon", "shortcut icon", "apple-touch-icon", "manifest"].any
      (fun v => memStr v t.rel)

/-- `_extract_and_check_links_from_file`: a read/parse exception yields
exactly one synthetic issue for the file; otherwise every checkable tag
passing the `rel` filter is checked and each failure appended, in
document order. -/
def extract_and_check_links_from_file (fs : SiteFS)
    (net : String → NetOutcome × NetOutcome) (checkExternal : Bool)
    (d : HtmlDoc) : List LinkIssue :=
  match d.parse with
  | none =>
    [{ source := relMsg fs d.abs
       tag := "N/A (Erro ao processar arquivo fonte)"
       href := "N/A"
       status := .readError }]
  | some c =>
    c.checkLinks.foldl (fun acc t =>
      if ¬ relFilterOk t then acc
      else
        let o := check_one_link fs net checkExternal t.url d.abs
        if o.passed then acc
        else acc ++ [{ source := relMsg fs d.abs
                       tag := t.tagName
                       href := t.url
                       status := .failed o }]) []

/-- `check_website_links`: concatenate the per-file issue lists over
every globbed file (the per-file except block already confines every
failure to one file). -/
def check_website_links (fs : SiteFS) (net : String → NetOutcome × NetOutcome)
    (checkExternal : Bool) (docs : List HtmlDoc) : List LinkIssue :=
  docs.foldl (fun acc d =>
    acc ++ extract_and_check_links_from_file fs net checkExternal d) []

/-! ## Helper lemmas: membership in the set / sort models -/

theorem memStr_iff (p : String) (l : List String) : memStr p l = true ↔ p ∈ l := by
  constructor
  · intro h
    rcases List.any_eq_true.mp h with ⟨x, hx, hpx⟩
    rw [decide_eq_true_eq] at hpx
    exact hpx ▸ hx
  · intro h
    exact List.any_eq_true.mpr ⟨p, h, by simp⟩

theorem mem_insertStr (p q : String) (l : List String) :
    p ∈ insertStr q l ↔ p ∈ l ∨ p = q := by
  unfold insertStr
  by_cases h : memStr q l = true
  · simp only [h, if_true]
    constructor
    · exact Or.inl
    · rintro (hp | rfl)
      · exact hp
      · exact (memStr_iff _ l).mp h
  · simp only [h]
    simp [List.mem_append]

theorem mem_dedupStr (p : String) (l : List String) : p ∈ dedupStr l ↔ p ∈ l := by
  have key : ∀ (l : List String) (init : List String),
      p ∈ l.foldl (fun acc q => insertStr q acc) init ↔ p ∈ init ∨ p ∈ l := by
    intro l
    induction l with
    | nil => simp
    | cons x xs ih =>
      intro init
      simp only [List.foldl_cons, ih, mem_insertStr, List.mem_cons]
      tauto
  simpa [dedupStr] using key l []

theorem mem_insertSortedStr (p x : String) (l : List String) :
    p ∈ insertSortedStr x l ↔ p = x ∨ p ∈ l := by
  induction l with
  | nil => simp [insertSortedStr]
  | cons y ys ih =>
    unfold insertSortedStr
    by_cases h : strLt x y = true
    · simp [h]
    · simp only [h]
      simp [ih]
      tauto

theorem mem_sortStr (p : String) (l : List String) : p ∈ sortStr l ↔ p ∈ l := by
  induction l with
  | nil => simp [sortStr]
  | cons x xs ih =>
    simp only [sortStr, List.foldr_cons] at ih ⊢
    rw [mem_insertSortedStr]
    simp [ih]

/-- Membership after a fold whose step either keeps the accumulator or
adds elements characterized by `P`. -/
theorem mem_foldl_iff {α β : Type} (step : List α → β → List α) (P : β → α → Prop)
    (h : ∀ acc b x, x ∈ step acc b ↔ x ∈ acc ∨ P b x) :
    ∀ (l : List β) (init : List α) (x : α),
      x ∈ l.foldl step init ↔ x ∈ init ∨ ∃ b ∈ l, P b x := by
  intro l
  induction l with
  | nil => simp
  | cons b bs ih =>
    intro init x
    simp only [List.foldl_cons, ih, h]
    constructor
    · rintro ((hx | hx) | ⟨b', hb', hP⟩)
      · exact Or.inl hx
      · exact Or.inr ⟨b, List.mem_cons_self b bs, hx⟩
      · exact Or.inr ⟨b', List.mem_cons_of_mem b hb', hP⟩
    · rintro (hx | ⟨b', hb', hP⟩)
      · exact Or.inl (Or.inl hx)
      · rcases List.mem_cons.mp hb' with rfl | hb'
        · exact Or.inl (Or.inr hP)
        · exact Or.inr ⟨b', hb', hP⟩

/-- A fold that appends a per-element list is the concatenation of the
per-element lists. -/
theorem foldl_append_eq {α β : Type} (f : β → List α) :
    ∀ (l : List β) (init : List α),
      l.foldl (fun acc b => acc ++ f b) init = init ++ (l.map f).flatten := by
  intro l
  induction l with
  | nil => simp
  | cons b bs ih =>
    intro init
    simp [ih, List.append_assoc]

theorem mem_insertDescBy {α : Type} (f : α → Nat) (x y : α) (l : List α) :
    y ∈ insertDescBy f x l ↔ y = x ∨ y ∈ l := by
  induction l with
  | nil => simp [insertDescBy]
  | cons z zs ih =>
    unfold insertDescBy
    by_cases h : f z ≤ f x
    · simp [h]
    · simp only [h]
      simp [ih]
      tauto

theorem mem_sortDescBy {α : Type} (f : α → Nat) (l : List α) (y : α) :
    y ∈ sortDescBy f l ↔ y ∈ l := by
  induction l with
  | nil => simp [sortDescBy]
  | cons z zs ih =>
    simp only [sortDescBy]
    rw [mem_insertDescBy]
    simp [ih]

theorem pairwise_insertDescBy {α : Type} (f : α → Nat) (x : α) :
    ∀ l : List α, List.Pairwise (fun a b => f b ≤ f a) l →
      List.Pairwise (fun a b => f b ≤ f a) (insertDescBy f x l) := by
  intro l
  induction l with
  | nil => simp [insertDescBy]
  | cons y ys ih =>
    intro h
    rcases List.pairwise_cons.mp h with ⟨hy, hys⟩
    unfold insertDescBy
    by_cases hle : f y ≤ f x
    · simp only [hle, if_true]
      refine List.pairwise_cons.mpr ⟨?_, h⟩
      intro z hz
      rcases List.mem_cons.mp hz with rfl | hz
      · exact hle
      · exact le_trans (hy z hz) hle
    · simp only [hle, if_false]
      refine List.pairwise_cons.mpr ⟨?_, ih hys⟩
      intro z hz
      rcases (mem_insertDescBy f x z ys).mp hz with rfl | hz
      · exact le_of_lt (Nat.lt_of_not_le hle)
      · exact hy z hz

theorem pairwise_sortDescBy {α : Type} (f : α → Nat) (l : List α) :
    List.Pairwise (fun a b => f b ≤ f a) (sortDescBy f l) := by
  induction l with
  | nil => simp [sortDescBy]
  | cons x xs ih => exact pairwise_insertDescBy f x _ ih

theorem filter_insertDescBy {α : Type} (f : α → Nat) (c : Nat) (x : α) (l : List α) :
    (insertDescBy f x l).filter (fun y => decide (f y = c)) =
      if f x = c then x :: l.filter (fun y => decide (f y = c))
      else l.filter (fun y => decide (f y = c)) := by
  induction l with
  | nil =>
    by_cases h : f x = c <;> simp [insertDescBy, List.filter, h]
  | cons y ys ih =>
    unfold insertDescBy
    by_cases hle : f y ≤ f x
    · simp only [hle, if_true, List.filter_cons]
      by_cases hx : f x = c <;> simp [hx]
    · simp only [hle, if_false, List.filter_cons]
      by_cases hy : f y = c
      · have hx : f x ≠ c := fun hx => hle (by rw [hx, hy])
        rw [ih]
        simp [hy, hx]
      · rw [ih]
        by_cases hx : f x = c <;> simp [hx, hy]

theorem filter_sortDescBy {α : Type} (f : α → Nat) (c : Nat) (l : List α) :
    (sortDescBy f l).filter (fun y => decide (f y = c)) =
      l.filter (fun y => decide (f y = c)) := by
  induction l with
  | nil => simp [sortDescBy]
  | cons x xs ih =>
    simp only [sortDescBy]
    rw [filter_insertDescBy]
    by_cases h : f x = c <;> simp [List.filter_cons, h, ih]

/-! ## Helper lemmas about the embedded analyses -/

theorem mem_foldl_insertStr (l init : List String) (x : String) :
    x ∈ l.foldl (fun acc t => insertStr t acc) init ↔ x ∈ init ∨ x ∈ l := by
  induction l generalizing init with
  | nil => simp
  | cons t ts ih =>
    simp only [List.foldl_cons, ih, mem_insertStr, List.mem_cons]
    tauto

/-- One-directional fold lemma: if every step adds only elements
satisfying `Q`, everything in the fold result satisfies `Q` or was
already in the initial accumulator. -/
theorem mem_foldl_imp {α β : Type} (step : List α → β → List α) (Q : β → α → Prop)
    (h : ∀ acc b x, x ∈ step acc b → x ∈ acc ∨ Q b x) :
    ∀ (l : List β) (init : List α) (x : α),
      x ∈ l.foldl step init → x ∈ init ∨ ∃ b ∈ l, Q b x := by
  intro l
  induction l with
  | nil => simpa using fun _ _ h => Or.inl h
  | cons b bs ih =>
    intro init x hx
    rcases ih _ x hx with hx' | ⟨b', hb', hQ⟩
    · rcases h init b x hx' with hx'' | hQ
      · exact Or.inl hx''
      · exact Or.inr ⟨b, List.mem_cons_self b bs, hQ⟩
    · exact Or.inr ⟨b', List.mem_cons_of_mem b hb', hQ⟩

/-- Membership in the per-document href fold used by both link-graph
builders: a target is collected iff some href resolves to it, it is
truthy, and it is in the known-file set. -/
theorem mem_hrefFold (res : String → Option String) (hrefs all init : List String)
    (t : String) :
    t ∈ hrefs.foldl (fun acc href =>
        match res href with
        | some u => if u ≠ "" ∧ memStr u all then insertStr u acc else acc
        | none => acc) init ↔
      t ∈ init ∨ ∃ href ∈ hrefs, res href = some t ∧ t ≠ "" ∧ memStr t all = true := by
  refine mem_foldl_iff _ (fun href u => res href = some u ∧ u ≠ "" ∧ memStr u all = true)
    ?_ hrefs init t
  intro acc href x
  rcases hr : res href with _ | u
  · simp [hr]
  · by_cases hc : u ≠ "" ∧ memStr u all = true
    · have : (u ≠ "" ∧ (memStr u all : Prop)) := by simpa using hc
      simp only [hr, if_pos this, mem_insertStr]
      constructor
      · rintro (hx | rfl)
        · exact Or.inl hx
        · exact Or.inr ⟨rfl, hc⟩
      · rintro (hx | ⟨he, _⟩)
        · exact Or.inl hx
        · exact Or.inr (Option.some.injEq _ _ ▸ he ▸ rfl)
    · have : ¬ (u ≠ "" ∧ (memStr u all : Prop)) := by simpa using hc
      simp only [hr, if_neg this]
      constructor
      · exact Or.inl
      · rintro (hx | ⟨he, hc'⟩)
        · exact hx
        · cases Option.some.inj he
          exact absurd hc' hc

theorem mem_oppDocTargets (fs : SiteFS) (all : List String) (d : HtmlDoc) (t : String) :
    t ∈ oppDocTargets fs all d ↔
      ∃ c, d.parse = some c ∧ ∃ href ∈ c.hrefs,
        resolve_internal_link_target_opp fs href (relOf fs d) = some t ∧
        t ≠ "" ∧ memStr t all = true := by
  rcases hd : d.parse with _ | c
  · simp [oppDocTargets, hd]
  · rw [oppDocTargets, hd]
    rw [mem_hrefFold (fun href => resolve_internal_link_target_opp fs href (relOf fs d))]
    simp [hd]

theorem mem_orphanDocTargets (fs : SiteFS) (all : List String) (d : HtmlDoc) (t : String) :
    t ∈ orphanDocTargets fs all d ↔
      ∃ c, d.parse = some c ∧ ∃ href ∈ c.hrefs,
        resolve_internal_link_target_orphans fs href (relOf fs d) = some t ∧
        t ≠ "" ∧ memStr t all = true := by
  rcases hd : d.parse with _ | c
  · simp [orphanDocTargets, hd]
  · rw [orphanDocTargets, hd]
    rw [mem_hrefFold (fun href => resolve_internal_link_target_orphans fs href (relOf fs d))]
    simp [hd]

/-- Does document `d` hold an anchor whose href the orphan-script
resolver resolves to `p` (with `p` truthy)?  This is the per-document
"resolved internal link target" relation of the orphan scripts. -/
def orphanLinksTo (fs : SiteFS) (d : HtmlDoc) (p : String) : Bool :=
  match d.parse with
  | none => false
  | some c => c.hrefs.any (fun href =>
      decide (resolve_internal_link_target_orphans fs href (relOf fs d) = some p) &&
        decide (p ≠ ""))

theorem orphanLinksTo_iff (fs : SiteFS) (d : HtmlDoc) (p : String) :
    orphanLinksTo fs d p = true ↔
      ∃ c, d.parse = some c ∧ ∃ href ∈ c.hrefs,
        resolve_internal_link_target_orphans fs href (relOf fs d) = some p ∧ p ≠ "" := by
  rcases hd : d.parse with _ | c
  · simp [orphanLinksTo, hd]
  · simp [orphanLinksTo, hd, List.any_eq_true, and_assoc]

/-- Membership characterization of `find_orphaned_pages_in_site`: a path
is reported orphaned iff the document list is nonempty, some document has
that path, and **no** document (the page itself included) holds an anchor
resolving to it. -/
theorem mem_find_orphaned_pages_iff (fs : SiteFS) (docs : List HtmlDoc) (p : String) :
    p ∈ find_orphaned_pages_in_site fs docs ↔
      docs ≠ [] ∧ (∃ d ∈ docs, relOf fs d = p) ∧
        ∀ d ∈ docs, orphanLinksTo fs d p = false := by
  rcases docs with _ | ⟨d0, ds⟩
  · simp [find_orphaned_pages_in_site, dedupStr]
  · set docs := d0 :: ds with hdocs
    have hall_iff : ∀ q, q ∈ dedupStr (docs.map (relOf fs)) ↔ ∃ d ∈ docs, relOf fs d = q := by
      intro q
      rw [mem_dedupStr]
      simp [List.mem_map, eq_comm]
    have hall_ne : dedupStr (docs.map (relOf fs)) ≠ [] := by
      intro hnil
      have : relOf fs d0 ∈ dedupStr (docs.map (relOf fs)) :=
        (hall_iff _).mpr ⟨d0, by simp [hdocs], rfl⟩
      rw [hnil] at this
      exact absurd this (List.not_mem_nil _)
    rw [find_orphaned_pages_in_site]
    simp only [hall_ne, if_false, mem_sortStr, List.mem_filter]
    have hlinked : ∀ q, q ∈ docs.foldl (fun acc d =>
        (orphanDocTargets fs (dedupStr (docs.map (relOf fs))) d).foldl
          (fun acc2 t => insertStr t acc2) acc) [] ↔
        ∃ d ∈ docs, q ∈ orphanDocTargets fs (dedupStr (docs.map (relOf fs))) d := by
      intro q
      rw [mem_foldl_iff _ (fun d x => x ∈ orphanDocTargets fs (dedupStr (docs.map (relOf fs))) d)
        (fun acc d x => mem_foldl_insertStr _ acc x)]
      simp
    constructor
    · rintro ⟨hpall, hfilter⟩
      refine ⟨by simp [hdocs], (hall_iff p).mp hpall, ?_⟩
      intro d hd
      by_contra hne
      have hlt : orphanLinksTo fs d p = true := by
        cases h : orphanLinksTo fs d p
        · exact absurd h hne
        · rfl
      rcases (orphanLinksTo_iff fs d p).mp hlt with ⟨c, hc, href, hhref, hres, hpne⟩
      have hmem : p ∈ orphanDocTargets fs (dedupStr (docs.map (relOf fs))) d :=
        (mem_orphanDocTargets fs _ d p).mpr
          ⟨c, hc, href, hhref, hres, hpne, (memStr_iff _ _).mpr hpall⟩
      have : p ∈ docs.foldl (fun acc d =>
          (orphanDocTargets fs (dedupStr (docs.map (relOf fs))) d).foldl
            (fun acc2 t => insertStr t acc2) acc) [] :=
        (hlinked p).mpr ⟨d, hd, hmem⟩
      rw [← memStr_iff] at this
      simp [this] at hfilter
    · rintro ⟨-, hex, hnolinks⟩
      have hpall : p ∈ dedupStr (docs.map (relOf fs)) := (hall_iff p).mpr hex
      refine ⟨hpall, ?_⟩
      have : ¬ p ∈ docs.foldl (fun acc d =>
          (orphanDocTargets fs (dedupStr (docs.map (relOf fs))) d).foldl
            (fun acc2 t => insertStr t acc2) acc) [] := by
        rw [hlinked p]
        rintro ⟨d, hd, hmem⟩
        rcases (mem_orphanDocTargets fs _ d p).mp hmem with ⟨c, hc, href, hhref, hres, hpne, -⟩
        have : orphanLinksTo fs d p = true :=
          (orphanLinksTo_iff fs d p).mpr ⟨c, hc, href, hhref, hres, hpne⟩
        rw [hnolinks d hd] at this
        exact Bool.false_ne_true this
      rw [← memStr_iff] at this
      simp only [Bool.not_eq_true] at this
      simp [this]

/-- Inversion for the opportunity suggester: an entry for target `T` is
the stable descending sort of the candidate list built from `T`'s topic
terms, and `T` comes from the file list. -/
theorem suggest_opp_entry (A : List String) (P : List (String × PageData))
    (O : List (String × List String)) (T : String) (lst : List Opportunity)
    (h : (T, lst) ∈ suggest_internal_linking_opportunities A P O) :
    T ∈ A ∧ lst = sortDescBy Opportunity.matching_terms_count
      (opportunity_candidates A P O T (topicTermsOpp P T)) := by
  rcases List.mem_filterMap.mp h with ⟨target, htarget, hf⟩
  rcases hpd : lookupPD P target with _ | pd
  · rw [hpd] at hf
    simp at hf
  · rw [hpd] at hf
    by_cases ht : topicTermsOpp P target = []
    · simp [ht] at hf
    · simp only [ht, if_false, Option.some.injEq, Prod.mk.injEq] at hf
      obtain ⟨rfl, rfl⟩ := hf
      exact ⟨htarget, rfl⟩

/-- Inversion for the orphan-link suggester: an entry for orphan `T` is
the stable descending sort of the candidate list built from the
non-orphan pages and `T`'s search terms. -/
theorem suggest_orphan_entry (orphans : List String)
    (P : List (String × SugPageData)) (all : List String) (T : String)
    (lst : List OrphanSuggestion)
    (h : (T, lst) ∈ suggest_linking_opportunities orphans P all) :
    T ∈ orphans ∧ lst = sortDescBy OrphanSuggestion.matching_terms_count
      (orphan_link_candidates (all.filter (fun p => ¬ memStr p orphans)) P
        (orphanSearchTerms P T)) := by
  rcases List.mem_filterMap.mp h with ⟨orphan, horphan, hf⟩
  rcases hpd : lookupSug P orphan with _ | pd
  · rw [hpd] at hf
    simp at hf
  · rw [hpd] at hf
    by_cases ht : orphanSearchTerms P orphan = []
    · simp [ht] at hf
    · simp only [ht, if_false, Option.some.injEq, Prod.mk.injEq] at hf
      obtain ⟨rfl, rfl⟩ := hf
      exact ⟨horphan, rfl⟩

/-- Every opportunity candidate for `T` names a source page that is one
of the site files, differs from `T`, and does not already link to `T` in
the outgoing-link map. -/
theorem opportunity_candidates_sound (A : List String) (P : List (String × PageData))
    (O : List (String × List String)) (T : String) (topic : List String)
    (o : Opportunity) (h : o ∈ opportunity_candidates A P O T topic) :
    o.source_page ∈ A ∧ o.source_page ≠ T ∧
      memStr T (lookupLM O o.source_page) = false := by
  have step := mem_foldl_imp
    (Q := fun src (x : Opportunity) =>
      x.source_page = src ∧ src ≠ T ∧ memStr T (lookupLM O src) = false)
    _ ?_ A [] o h
  · rcases step with hinit | ⟨src, hsrc, heq, hne, hmem⟩
    · simp at hinit
    · exact ⟨heq ▸ hsrc, heq ▸ hne, heq ▸ hmem⟩
  · intro acc src x hx
    by_cases hst : src = T
    · rw [if_pos hst] at hx
      exact Or.inl hx
    · rw [if_neg hst] at hx
      rcases hpd : lookupPD P src with _ | sinfo
      · rw [hpd] at hx
        exact Or.inl hx
      · rw [hpd] at hx
        dsimp only at hx
        by_cases hlink : memStr T (lookupLM O src) = true
        · have : (memStr T (lookupLM O src) : Prop) := hlink
          rw [if_pos this] at hx
          exact Or.inl hx
        · have : ¬ (memStr T (lookupLM O src) : Prop) := hlink
          rw [if_neg this] at hx
          by_cases hfound : topic.filter
              (fun term => containsWholeWord sinfo.text_content_for_matching term) = []
          · rw [if_pos hfound] at hx
            exact Or.inl hx
          · rw [if_neg hfound] at hx
            rcases List.mem_append.mp hx with hx' | hx'
            · exact Or.inl hx'
            · rcases List.mem_singleton.mp hx' with rfl
              exact Or.inr ⟨rfl, hst, Bool.not_eq_true _ ▸ hlink⟩

/-- Every orphan-link candidate names a source drawn from the candidate
page list. -/
theorem orphan_link_candidates_sound (cand : List String)
    (P : List (String × SugPageData)) (terms : List String)
    (s : OrphanSuggestion) (h : s ∈ orphan_link_candidates cand P terms) :
    s.link_from_page ∈ cand := by
  have step := mem_foldl_imp
    (Q := fun src (x : OrphanSuggestion) => x.link_from_page = src)
    _ ?_ cand [] s h
  · rcases step with hinit | ⟨src, hsrc, heq⟩
    · simp at hinit
    · exact heq ▸ hsrc
  · intro acc src x hx
    rcases hpd : lookupSug P src with _ | sinfo
    · rw [hpd] at hx
      exact Or.inl hx
    · rw [hpd] at hx
      dsimp only at hx
      by_cases hcnt : 0 < (terms.filter (fun term =>
          term ≠ "" ∧ 2 < term.data.length ∧
            containsWholeWord sinfo.text_content term)).length
      · rw [if_pos hcnt] at hx
        rcases List.mem_append.mp hx with hx' | hx'
        · exact Or.inl hx'
        · rcases List.mem_singleton.mp hx' with rfl
          exact Or.inr rfl
      · rw [if_neg hcnt] at hx
        exact Or.inl hx

/-! ## Concrete fixtures used by counterexamples and witnesses -/

/-- Two-page site: `a.html` links to itself by its own filename,
`b.html` has no links. -/
def egFS : SiteFS :=
  { root := "/s"
    files := ["/s/a.html", "/s/b.html"]
    dirs := ["/s"]
    anchors := [] }

def egDocA : HtmlDoc :=
  { abs := "/s/a.html"
    parse := some { titleStr := some "Alpha", metaKeywords := none,
                    textOpp := "", textSug := "", hrefs := ["a.html"], checkLinks := [] } }

def egDocB : HtmlDoc :=
  { abs := "/s/b.html"
    parse := some { titleStr := some "Beta", metaKeywords := none,
                    textOpp := "", textSug := "", hrefs := [], checkLinks := [] } }

/-- Variant of `egDocA` that links to `b.html` instead (used for the
enumeration-order counterexample). -/
def egDocA2 : HtmlDoc :=
  { abs := "/s/a.html"
    parse := some { titleStr := some "Alpha", metaKeywords := none,
                    textOpp := "", textSug := "", hrefs := ["b.html"], checkLinks := [] } }

/-- Site with a directory `d` lacking an `index.html` and a directory
`d2` containing one. -/
def dirFS : SiteFS :=
  { root := "/s"
    files := ["/s/a.html", "/s/d2/index.html"]
    dirs := ["/s", "/s/d", "/s/d2"]
    anchors := [] }

/-- Site whose root `/s` has a sibling directory `/s2` (the root's name
is a string prefix of the sibling's) containing an HTML file. -/
def escFS : SiteFS :=
  { root := "/s"
    files := ["/s/a.html", "/s2/x.html"]
    dirs := ["/s"]
    anchors := [] }

/-! ## Claims -/

/-- C7: for every external URL, a HEAD status of at least 400 triggers a
GET whose status replaces the HEAD status as the authoritative one; the
check succeeds exactly when the final authoritative status is below 400
(so HEAD 404 followed by GET 200 is a success), and a HEAD below 400
issues no GET. -/
theorem claim_C7_head_get_fallback :
    ∀ h g : Nat,
      (fetch_external_link (.status h) (.status g)).finalStatus
          = some (if 400 ≤ h then g else h) ∧
      ((fetch_external_link (.status h) (.status g)).ok = true ↔
        (if 400 ≤ h then g else h) < 400) ∧
      ((fetch_external_link (.status h) (.status g)).getIssued = true ↔ 400 ≤ h) := by
  intro h g
  rw [fetch_external_link]
  by_cases hh : 400 ≤ h
  · simp [hh]
  · simp [hh, Nat.lt_of_not_le hh]

/-- C3 (amended): a href resolving to a directory with an `index.html`
resolves to that file in all three components; for a directory without
one, the opportunity script's resolver fails, the orphan scripts'
resolver keeps the directory path itself (the `return None` is commented
out there), and the link checker reports the link as broken. -/
theorem claim_C3_directory_fallback :
    (∀ (fs : SiteFS) (n : String), fs.isdir n = true →
        fs.isfile (normalize_path (osJoin n "index.html")) = true →
        opp_dir_step fs n = some (normalize_path (osJoin n "index.html")) ∧
        orphans_dir_step fs n = normalize_path (osJoin n "index.html")) ∧
    (∀ (fs : SiteFS) (n : String), fs.isdir n = true →
        fs.isfile (normalize_path (osJoin n "index.html")) = false →
        opp_dir_step fs n = none ∧ orphans_dir_step fs n = n) ∧
    (∀ (fs : SiteFS) (p : String), startsWithStr p fs.root = true →
        fs.isdir p = true → fs.isfile (osJoin p "index.html") = true →
        linkChecker_check_internal_link_target fs p "" = .ok) ∧
    (∀ (fs : SiteFS) (p : String), startsWithStr p fs.root = true →
        fs.isdir p = true → fs.isfile (osJoin p "index.html") = false →
        linkChecker_check_internal_link_target fs p "" =
          .dirWithoutIndex (relMsg fs p)) := by
  refine ⟨?_, ?_, ?_, ?_⟩
  · intro fs n hd hf
    constructor
    · rw [opp_dir_step]
      simp [hd, hf]
    · rw [orphans_dir_step]
      simp [hd, hf]
  · intro fs n hd hf
    constructor
    · rw [opp_dir_step]
      simp [hd, hf]
    · rw [orphans_dir_step]
      simp [hd, hf]
  · intro fs p hsw hd hf
    rw [linkChecker_check_internal_link_target]
    simp [hsw, hd, hf]
  · intro fs p hsw hd hf
    rw [linkChecker_check_internal_link_target]
    simp [hsw, hd, hf]

/-- C3 counterexample: for the directory `d` of `dirFS`, which has no
`index.html`, the orphan-script resolver does **not** return "no page" as
claimed: it resolves the href to the directory path itself (only the
opportunity-script resolver returns none). -/
theorem claim_C3_counterexample :
    dirFS.isdir "/s/d" = true ∧ dirFS.isfile "/s/d/index.html" = false ∧
    resolve_internal_link_target_orphans dirFS "d" "a.html" ≠ none ∧
    resolve_internal_link_target_orphans dirFS "d" "a.html" = some "d" ∧
    resolve_internal_link_target_opp dirFS "d" "a.html" = none := by
  refine ⟨by decide, by decide, by decide, by decide, by decide⟩

/-- Witness for C3: the amended theorem applied to the concrete
directories of `dirFS`. -/
theorem claim_C3_witness :
    (opp_dir_step dirFS "/s/d2" = some (normalize_path (osJoin "/s/d2" "index.html")) ∧
      orphans_dir_step dirFS "/s/d2" = normalize_path (osJoin "/s/d2" "index.html")) ∧
    (opp_dir_step dirFS "/s/d" = none ∧ orphans_dir_step dirFS "/s/d" = "/s/d") ∧
    linkChecker_check_internal_link_target dirFS "/s/d2" "" = .ok ∧
    linkChecker_check_internal_link_target dirFS "/s/d" "" =
      .dirWithoutIndex (relMsg dirFS "/s/d") :=
  ⟨claim_C3_directory_fallback.1 dirFS "/s/d2" (by decide) (by decide),
   claim_C3_directory_fallback.2.1 dirFS "/s/d" (by decide) (by decide),
   claim_C3_directory_fallback.2.2.1 dirFS "/s/d2" (by decide) (by decide) (by decide),
   claim_C3_directory_fallback.2.2.2 dirFS "/s/d" (by decide) (by decide) (by decide)⟩

/-- C4 (amended): the containment test is a **string-prefix** check on
the normalized absolute path against the (normalized) site root: any
candidate failing that check is rejected by all three components, but a
path in a sibling directory whose absolute name extends the root's name
as a string passes the check (see the counterexample). -/
theorem claim_C4_site_root_prefix_check :
    (∀ (fs : SiteFS) (href src : String),
        startsWithStr (orphans_dir_step fs (target_abs_norm fs href src))
            (normalize_path fs.root) = false →
        resolve_internal_link_target_orphans fs href src = none) ∧
    (∀ (fs : SiteFS) (href src n : String),
        opp_dir_step fs (target_abs_norm fs href src) = some n →
        startsWithStr n (normalize_path fs.root) = false →
        resolve_internal_link_target_opp fs href src = none) ∧
    (∀ (fs : SiteFS) (p frag : String), startsWithStr p fs.root = false →
        linkChecker_check_internal_link_target fs p frag =
          .outsideSite (relMsg fs p)) := by
  refine ⟨?_, ?_, ?_⟩
  · intro fs href src h
    rw [resolve_internal_link_target_orphans]
    by_cases hs : href_is_skipped href = true
    · simp [hs]
    · simp [hs, h]
  · intro fs href src n hstep h
    rw [resolve_internal_link_target_opp]
    by_cases hs : href_is_skipped href = true
    · simp [hs]
    · simp only [hs, if_false, Bool.false_eq_true]
      rw [hstep]
      by_cases hf : (¬ fs.isfile n ∨ ¬ endsWithStr n ".html")
      · simp only [hf, if_true]
      · simp [hf, h]
  · intro fs p frag h
    rw [linkChecker_check_internal_link_target]
    simp [h]

/-- C4 counterexample: from `/s/a.html`, the href `../s2/x.html`
normalizes to `/s2/x.html`, which lies outside the site root `/s` but
passes the string-prefix check: both resolvers accept it as an internal
target and the link checker classifies it as a fine internal link rather
than as pointing outside the site. -/
theorem claim_C4_counterexample :
    target_abs_norm escFS "../s2/x.html" "a.html" = "/s2/x.html" ∧
    resolve_internal_link_target_opp escFS "../s2/x.html" "a.html" =
      some "../s2/x.html" ∧
    resolve_internal_link_target_orphans escFS "../s2/x.html" "a.html" =
      some "../s2/x.html" ∧
    linkChecker_check_internal_link_target escFS "/s2/x.html" "" = .ok := by
  refine ⟨by decide, by decide, by decide, by decide⟩

/-- Witness for C4: the amended theorem applied to hrefs whose
normalized targets genuinely fall outside the root prefix. -/
theorem claim_C4_witness :
    resolve_internal_link_target_orphans escFS "/../etc/x.html" "a.html" = none ∧
    resolve_internal_link_target_opp escFS "/../e.html" "a.html" = none ∧
    linkChecker_check_internal_link_target escFS "/etc/x" "" =
      .outsideSite (relMsg escFS "/etc/x") :=
  ⟨claim_C4_site_root_prefix_check.1 escFS "/../etc/x.html" "a.html" (by decide),
   claim_C4_site_root_prefix_check.2.1 escFS "/../e.html" "a.html" "/e.html"
     (by decide) (by decide),
   claim_C4_site_root_prefix_check.2.2 escFS "/etc/x" "" (by decide)⟩

/-- C1 (amended): fragment-only hrefs are never resolved, so they never
produce a graph edge; but there is **no self-link exclusion**: any anchor
whose href resolves to an existing site page — the containing page
itself included — is added to that page's outgoing set. -/
theorem claim_C1_self_links :
    (∀ (fs : SiteFS) (href src : String), startsWithStr href "#" = true →
        resolve_internal_link_target_opp fs href src = none ∧
        resolve_internal_link_target_orphans fs href src = none) ∧
    (∀ (fs : SiteFS) (all : List String) (d : HtmlDoc) (c : DocContent)
        (href t : String), d.parse = some c → href ∈ c.hrefs →
        resolve_internal_link_target_opp fs href (relOf fs d) = some t →
        t ≠ "" → memStr t all = true → t ∈ oppDocTargets fs all d) := by
  constructor
  · intro fs href src h
    have hs : href_is_skipped href = true := by
      rw [href_is_skipped]
      simp [h]
    constructor
    · rw [resolve_internal_link_target_opp]
      simp [hs]
    · rw [resolve_internal_link_target_orphans]
      simp [hs]
  · intro fs all d c href t hc hhref hres hne hmem
    exact (mem_oppDocTargets fs all d t).mpr ⟨c, hc, href, hhref, hres, hne, hmem⟩

/-- C1 counterexample: in `egFS`, page `a.html` holds the anchor href
`a.html`; the resolver resolves it to the page's own path and the graph
builder records the self edge, so the link graph does map a page to
itself. -/
theorem claim_C1_counterexample :
    resolve_internal_link_target_opp egFS "a.html" "a.html" = some "a.html" ∧
    memStr "a.html"
      (lookupLM (get_site_data_and_link_map egFS [egDocA, egDocB]).2.2 "a.html") =
      true := by
  refine ⟨by decide, by decide⟩

/-- Witness for C1: the amended theorem applied to a fragment href and to
the concrete self-linking page of `egFS`. -/
theorem claim_C1_witness :
    (resolve_internal_link_target_opp egFS "#sec" "a.html" = none ∧
      resolve_internal_link_target_orphans egFS "#sec" "a.html" = none) ∧
    "a.html" ∈ oppDocTargets egFS ["a.html", "b.html"] egDocA :=
  ⟨claim_C1_self_links.1 egFS "#sec" "a.html" (by decide),
   claim_C1_self_links.2 egFS ["a.html", "b.html"] egDocA
     { titleStr := some "Alpha", metaKeywords := none,
       textOpp := "", textSug := "", hrefs := ["a.html"], checkLinks := [] }
     "a.html" "a.html" rfl (by decide) (by decide) (by decide) (by decide)⟩

/-- C2 (amended): a path is in the orphan detector's output iff the
document set is nonempty, some document has that path, and **no document
at all** — the page itself included — holds an anchor resolving to it.
In particular a page whose only incoming internal link is a self-link is
**not** reported as an orphan. -/
theorem claim_C2_orphan_characterization :
    ∀ (fs : SiteFS) (docs : List HtmlDoc) (p : String),
      p ∈ find_orphaned_pages_in_site fs docs ↔
        docs ≠ [] ∧ (∃ d ∈ docs, relOf fs d = p) ∧
          ∀ d ∈ docs, orphanLinksTo fs d p = false :=
  fun fs docs p => mem_find_orphaned_pages_iff fs docs p

/-- C2 counterexample: in `egFS`, no **other** document links to
`a.html` (its only incoming link is its own self-link), yet `a.html` is
not reported as an orphan — refuting the claimed equivalence. -/
theorem claim_C2_counterexample :
    ¬ (("a.html" ∈ find_orphaned_pages_in_site egFS [egDocA, egDocB]) ↔
        (∀ d ∈ [egDocA, egDocB], relOf egFS d ≠ "a.html" →
          orphanLinksTo egFS d "a.html" = false)) := by
  intro hiff
  have hrhs : ∀ d ∈ [egDocA, egDocB], relOf egFS d ≠ "a.html" →
      orphanLinksTo egFS d "a.html" = false := by decide
  have hlhs : ¬ ("a.html" ∈ find_orphaned_pages_in_site egFS [egDocA, egDocB]) := by decide
  exact hlhs (hiff.mpr hrhs)

/-- C9 (amended): the two-pass orphan detector is invariant (as a set)
under permutations of the file enumeration; the single-pass loader of
suggest_orphan_links is **not**: it counts a link from A to B only when B
was enumerated no later than A, so its orphan output depends on the
enumeration order (second conjunct: a concrete pair of enumeration
orders of the same two files yields different orphan lists). -/
theorem claim_C9_enumeration_order :
    (∀ (fs : SiteFS) (docs docs' : List HtmlDoc), docs.Perm docs' →
        ∀ p, p ∈ find_orphaned_pages_in_site fs docs ↔
          p ∈ find_orphaned_pages_in_site fs docs') ∧
    (get_all_html_files_and_links egFS [egDocA2, egDocB]).1 ≠
      (get_all_html_files_and_links egFS [egDocB, egDocA2]).1 := by
  constructor
  · intro fs docs docs' hperm p
    rw [mem_find_orphaned_pages_iff, mem_find_orphaned_pages_iff]
    have hnil : docs = [] ↔ docs' = [] := by
      rw [← List.length_eq_zero, ← List.length_eq_zero, hperm.length_eq]
    constructor
    · rintro ⟨h1, h2, h3⟩
      refine ⟨fun h => h1 (hnil.mpr h), ?_, ?_⟩
      · rcases h2 with ⟨d, hd, hrel⟩
        exact ⟨d, hperm.mem_iff.mp hd, hrel⟩
      · intro d hd
        exact h3 d (hperm.mem_iff.mpr hd)
    · rintro ⟨h1, h2, h3⟩
      refine ⟨fun h => h1 (hnil.mp h), ?_, ?_⟩
      · rcases h2 with ⟨d, hd, hrel⟩
        exact ⟨d, hperm.mem_iff.mpr hd, hrel⟩
      · intro d hd
        exact h3 d (hperm.mem_iff.mp hd)
  · decide

/-- C9 counterexample: the two enumeration orders `[a, b]` and `[b, a]`
of the same document set (a permutation) give different orphan sets from
the orphan-link suggester's loader: with `a` first, its link to the
not-yet-enumerated `b.html` is dropped and both pages are reported
orphaned; with `b` first the link is counted. -/
theorem claim_C9_counterexample :
    [egDocA2, egDocB].Perm [egDocB, egDocA2] ∧
    (get_all_html_files_and_links egFS [egDocA2, egDocB]).1 = ["a.html", "b.html"] ∧
    (get_all_html_files_and_links egFS [egDocB, egDocA2]).1 = ["a.html"] :=
  ⟨List.Perm.swap egDocB egDocA2 [], by decide, by decide⟩

/-- Witness for C9: the permutation-invariance half applied to the
concrete swap of the two documents. -/
theorem claim_C9_witness :
    ("b.html" ∈ find_orphaned_pages_in_site egFS [egDocA, egDocB] ↔
      "b.html" ∈ find_orphaned_pages_in_site egFS [egDocB, egDocA]) :=
  claim_C9_enumeration_order.1 egFS [egDocA, egDocB] [egDocB, egDocA]
    (List.Perm.swap egDocB egDocA []) "b.html"

/-- C5: a source page that the link graph already records as linking to
the target never appears in the target's suggestion list, whatever its
text matches. -/
theorem claim_C5_existing_links_excluded :
    ∀ (A : List String) (P : List (String × PageData))
      (O : List (String × List String)) (T : String) (lst : List Opportunity)
      (o : Opportunity),
      (T, lst) ∈ suggest_internal_linking_opportunities A P O → o ∈ lst →
      memStr T (lookupLM O o.source_page) = false := by
  intro A P O T lst o hentry ho
  obtain ⟨-, rfl⟩ := suggest_opp_entry A P O T lst hentry
  have ho' := (mem_sortDescBy _ _ o).mp ho
  exact (opportunity_candidates_sound A P O T _ o ho').2.2

/-- Fixtures for the suggester witnesses: target `t.html` (topic term
"circuito"), source `s.html` whose text matches it and which does not
yet link to it. -/
def sugA : List String := ["t.html", "s.html"]

def sugP : List (String × PageData) :=
  [("t.html", { title := "Circuito", keywords_set := [],
                text_content_for_matching := "", raw_text_content_for_snippet := "" }),
   ("s.html", { title := "Fonte", keywords_set := [],
                text_content_for_matching := "circuito ligado",
                raw_text_content_for_snippet := "um circuito ligado aqui" })]

def sugO : List (String × List String) := [("t.html", []), ("s.html", [])]

def sugOppEx : Opportunity :=
  { source_page := "s.html", source_page_title := "Fonte",
    matching_terms_count := 1, matched_terms_list := ["circuito"],
    context_snippet := "...um circuito ligado aqui..." }

/-- Witness for C5: the theorem applied to the concrete suggestion the
suggester produces for `t.html`. -/
theorem claim_C5_witness :
    memStr "t.html" (lookupLM sugO sugOppEx.source_page) = false :=
  claim_C5_existing_links_excluded sugA sugP sugO "t.html" [sugOppEx] sugOppEx
    (by decide) (by decide)

/-- C6: every suggestion list either suggester returns is sorted by
descending match count, and the sort is stable: for each count value,
the suggestions with that count appear exactly in the order in which the
candidate source pages were discovered (the filters against the
candidate lists coincide). -/
theorem claim_C6_stable_descending_sort :
    (∀ (A : List String) (P : List (String × PageData))
        (O : List (String × List String)) (T : String) (lst : List Opportunity),
      (T, lst) ∈ suggest_internal_linking_opportunities A P O →
      List.Pairwise (fun a b => b.matching_terms_count ≤ a.matching_terms_count) lst ∧
      ∀ c, lst.filter (fun o => decide (o.matching_terms_count = c)) =
        (opportunity_candidates A P O T (topicTermsOpp P T)).filter
          (fun o => decide (o.matching_terms_count = c))) ∧
    (∀ (orphans : List String) (P : List (String × SugPageData)) (all : List String)
        (T : String) (lst : List OrphanSuggestion),
      (T, lst) ∈ suggest_linking_opportunities orphans P all →
      List.Pairwise (fun a b => b.matching_terms_count ≤ a.matching_terms_count) lst ∧
      ∀ c, lst.filter (fun s => decide (s.matching_terms_count = c)) =
        (orphan_link_candidates (all.filter (fun p => ¬ memStr p orphans)) P
          (orphanSearchTerms P T)).filter
            (fun s => decide (s.matching_terms_count = c))) := by
  constructor
  · intro A P O T lst hentry
    obtain ⟨-, rfl⟩ := suggest_opp_entry A P O T lst hentry
    exact ⟨pairwise_sortDescBy _ _, fun c => filter_sortDescBy _ c _⟩
  · intro orphans P all T lst hentry
    obtain ⟨-, rfl⟩ := suggest_orphan_entry orphans P all T lst hentry
    exact ⟨pairwise_sortDescBy _ _, fun c => filter_sortDescBy _ c _⟩

/-- Witness for C6: the theorem applied to the concrete entry the
opportunity suggester produces for `t.html`. -/
theorem claim_C6_witness :
    List.Pairwise (fun a b => b.matching_terms_count ≤ a.matching_terms_count)
      [sugOppEx] ∧
    [sugOppEx].filter (fun o => decide (o.matching_terms_count = 1)) =
      (opportunity_candidates sugA sugP sugO "t.html" (topicTermsOpp sugP "t.html")).filter
        (fun o => decide (o.matching_terms_count = 1)) :=
  ⟨(claim_C6_stable_descending_sort.1 sugA sugP sugO "t.html" [sugOppEx] (by decide)).1,
   (claim_C6_stable_descending_sort.1 sugA sugP sugO "t.html" [sugOppEx] (by decide)).2 1⟩

/-- C10: every source the orphan-link suggester proposes is itself a
non-orphan — candidates are drawn from all pages minus the orphan set,
so no orphan is ever proposed as a place to link another orphan from. -/
theorem claim_C10_sources_non_orphan :
    ∀ (orphans : List String) (P : List (String × SugPageData)) (all : List String)
      (T : String) (lst : List OrphanSuggestion) (s : OrphanSuggestion),
      (T, lst) ∈ suggest_linking_opportunities orphans P all → s ∈ lst →
      memStr s.link_from_page orphans = false := by
  intro orphans P all T lst s hentry hs
  obtain ⟨-, rfl⟩ := suggest_orphan_entry orphans P all T lst hentry
  have hs' := (mem_sortDescBy _ _ s).mp hs
  have hc := orphan_link_candidates_sound _ P _ s hs'
  have h2 := (List.mem_filter.mp hc).2
  simp only [decide_eq_true_eq] at h2
  cases hb : memStr s.link_from_page orphans
  · rfl
  · exact absurd hb h2

/-- Fixtures for the orphan-suggester witness. -/
def orphP : List (String × SugPageData) :=
  [("o.html", { title := "Circuito", keywords := [], text_content := "" }),
   ("s.html", { title := "Fonte", keywords := [], text_content := "circuito aqui" })]

def orphSugEx : OrphanSuggestion :=
  { link_from_page := "s.html", matching_terms_count := 1, source_page_title := "Fonte" }

/-- Witness for C10: the theorem applied to the concrete suggestion
produced for the orphan `o.html`. -/
theorem claim_C10_witness :
    memStr orphSugEx.link_from_page ["o.html"] = false :=
  claim_C10_sources_non_orphan ["o.html"] orphP ["o.html", "s.html"] "o.html"
    [orphSugEx] orphSugEx (by decide) (by decide)

/-- The page-data component of the single-pass loader is the per-file
entry list appended in enumeration order, independent of the link
bookkeeping. -/
theorem sugStep_pdata (fs : SiteFS) :
    ∀ (docs : List HtmlDoc) (st : List String × List String × List (String × SugPageData)),
      (docs.foldl (sugStep fs) st).2.2 =
        st.2.2 ++ docs.map (fun d => (relOf fs d, sugEntryOf d)) := by
  intro docs
  induction docs with
  | nil => simp
  | cons d ds ih =>
    intro st
    rw [List.foldl_cons, ih]
    have hstep : (sugStep fs st d).2.2 = st.2.2 ++ [(relOf fs d, sugEntryOf d)] := by
      rw [sugStep]
      cases hp : d.parse <;> simp [hp]
    rw [hstep]
    simp

/-- A document with a read error. -/
def egDocBad : HtmlDoc := { abs := "/s/bad.html", parse := none }

/-- A trivial network oracle for the link-checker witnesses. -/
def egNet : String → NetOutcome × NetOutcome := fun _ => (.status 200, .status 200)

/-- C8: one file's read/parse failure never aborts the rest of the run.
The link checker's report is exactly the concatenation of the per-file
issue lists, a failing file contributing exactly one synthetic issue;
the opportunity and orphan-suggestion loaders record one entry per
enumerated file (a failing file getting the default/empty entry), so the
outputs still cover every other file. -/
theorem claim_C8_per_file_isolation :
    (∀ (fs : SiteFS) (net : String → NetOutcome × NetOutcome) (ce : Bool)
        (docs : List HtmlDoc),
      check_website_links fs net ce docs =
        (docs.map (extract_and_check_links_from_file fs net ce)).flatten) ∧
    (∀ (fs : SiteFS) (net : String → NetOutcome × NetOutcome) (ce : Bool)
        (d : HtmlDoc), d.parse = none →
      extract_and_check_links_from_file fs net ce d =
        [{ source := relMsg fs d.abs
           tag := "N/A (Erro ao processar arquivo fonte)"
           href := "N/A"
           status := .readError }]) ∧
    (∀ (fs : SiteFS) (docs : List HtmlDoc),
      ((get_site_data_and_link_map fs docs).2.1).map Prod.fst =
        docs.map (relOf fs) ∧
      ∀ d ∈ docs, d.parse = none →
        (relOf fs d, oppFailedEntry (relOf fs d)) ∈
          (get_site_data_and_link_map fs docs).2.1) ∧
    (∀ (fs : SiteFS) (docs : List HtmlDoc),
      ((get_all_html_files_and_links fs docs).2.1).map Prod.fst =
        docs.map (relOf fs) ∧
      ∀ d ∈ docs,
        (relOf fs d, sugEntryOf d) ∈ (get_all_html_files_and_links fs docs).2.1) := by
  refine ⟨?_, ?_, ?_, ?_⟩
  · intro fs net ce docs
    rw [check_website_links, foldl_append_eq]
    simp
  · intro fs net ce d h
    rw [extract_and_check_links_from_file, h]
  · intro fs docs
    constructor
    · simp [get_site_data_and_link_map, List.map_map, Function.comp]
    · intro d hd hparse
      rw [get_site_data_and_link_map]
      refine List.mem_map.mpr ⟨d, hd, ?_⟩
      rw [hparse]
  · intro fs docs
    constructor
    · rw [get_all_html_files_and_links]
      dsimp only
      rw [sugStep_pdata]
      simp [List.map_map, Function.comp]
    · intro d hd
      rw [get_all_html_files_and_links]
      dsimp only
      rw [sugStep_pdata]
      simp only [List.nil_append]
      exact List.mem_map.mpr ⟨d, hd, rfl⟩

/-- Witness for C8: the failing document `bad.html` yields exactly one
synthetic issue in the checker and default entries in both loaders,
alongside the healthy `b.html`. -/
theorem claim_C8_witness :
    extract_and_check_links_from_file egFS egNet true egDocBad =
      [{ source := relMsg egFS egDocBad.abs
         tag := "N/A (Erro ao processar arquivo fonte)"
         href := "N/A"
         status := .readError }] ∧
    (relOf egFS egDocBad, oppFailedEntry (relOf egFS egDocBad)) ∈
      (get_site_data_and_link_map egFS [egDocBad, egDocB]).2.1 ∧
    (relOf egFS egDocBad, sugEntryOf egDocBad) ∈
      (get_all_html_files_and_links egFS [egDocBad, egDocB]).2.1 :=
  ⟨claim_C8_per_file_isolation.2.1 egFS egNet true egDocBad rfl,
   (claim_C8_per_file_isolation.2.2.1 egFS [egDocBad, egDocB]).2 egDocBad
     (by decide) rfl,
   (claim_C8_per_file_isolation.2.2.2 egFS [egDocBad, egDocB]).2 egDocBad
     (by decide)⟩
